import Mathlib

/-!
Verification development for the Retro-Games-Database progress tracker
(`progress_tracker.py`).  The Python source is shallowly embedded below:
strings are lists of characters, JSON records are structures, Python's
`round` on exact values is round-half-to-even over `ℚ`, and fallible
steps return `Except`/`Option` values.
-/

set_option allowUnsafeReducibility true

-- Batteries marks the rational-number arithmetic irreducible, which stops
-- `decide` from evaluating concrete percentages; restore reducibility so
-- concrete runs of the embedded tracker can be checked by evaluation.
attribute [semireducible] Rat.mul Rat.div Rat.sub Rat.add Rat.inv Rat.neg

/-- A Python string, modelled as its list of characters. -/
abbrev Name := List Char

/-- Python's `str.lower()` (ASCII case folding, as used by the console names here). -/
def lowerStr (s : Name) : Name := s.map Char.toLower

/-- Tests whether `needle` starts `hay` (helper for Python's substring test). -/
def isStartOf : Name → Name → Bool
  | [], _ => true
  | _ :: _, [] => false
  | a :: as, b :: bs => a == b && isStartOf as bs

/-- Python's `needle in hay` substring containment on strings. -/
def occursIn (needle : Name) : Name → Bool
  | [] => needle.isEmpty
  | c :: rest => isStartOf needle (c :: rest) || occursIn needle rest

/-- Python's `s.endswith(suffix)`. -/
def endsWithStr (suffix s : Name) : Bool := isStartOf suffix.reverse s.reverse

/-- Helper for `replaceAll`: the fuel starts at the length of the string and
never runs out, since every step consumes at least one character. -/
def replaceAllFuel (pat repl : Name) : ℕ → Name → Name
  | _, [] => []
  | 0, s => s
  | fuel + 1, c :: rest =>
    if pat ≠ [] ∧ isStartOf pat (c :: rest) = true then
      repl ++ replaceAllFuel pat repl fuel (List.drop (pat.length - 1) rest)
    else
      c :: replaceAllFuel pat repl fuel rest

/-- Python's `s.replace(pat, repl)`: left-to-right, non-overlapping
replacement of every occurrence (for the non-empty patterns used here). -/
def replaceAll (pat repl s : Name) : Name := replaceAllFuel pat repl s.length s

/-- Helper for `titleCase`, tracking whether the previous character was
alphabetic. -/
def titleCaseGo : Bool → Name → Name
  | _, [] => []
  | prevAlpha, c :: rest =>
    (if c.isAlpha then (if prevAlpha then c.toLower else c.toUpper) else c) ::
      titleCaseGo c.isAlpha rest

/-- Python's `s.title()` (ASCII): the first letter of every alphabetic run is
upper-cased and the rest lower-cased. -/
def titleCase (s : Name) : Name := titleCaseGo false s

/-- Round-half-to-even of a rational to an integer: the behaviour of
Python 3's built-in `round` on exact values. -/
def roundHalfEven (q : ℚ) : ℤ :=
  if q - ⌊q⌋ < 1 / 2 then ⌊q⌋
  else if 1 / 2 < q - ⌊q⌋ then ⌊q⌋ + 1
  else if ⌊q⌋ % 2 = 0 then ⌊q⌋ else ⌊q⌋ + 1

/-- Python's `round(q, d)` for `d` decimal digits (round half to even). -/
def pyRound (q : ℚ) (d : ℕ) : ℚ := (roundHalfEven (q * 10 ^ d) : ℚ) / 10 ^ d

/-- Python's `int(q)` on a rational: truncation toward zero. -/
def pyTrunc (q : ℚ) : ℤ := if q < 0 then -⌊-q⌋ else ⌊q⌋

/-- One record of the `consoles` list of `dead_consoles.json`
("ReferenceConsole" in the spec). -/
structure RefConsole where
  console : Name
  manufacturer : Name
  generation : ℤ
  release_year : ℤ
  discontinuation_year : ℤ
  total_official_games : ℤ
  deriving DecidableEq

/-- The value stored in `databases[console_name]` by
`find_console_databases` ("DiscoveredCatalog" in the spec); only the parts
the tracker reads later are modelled (the raw `data` dict is read only for
its `games` length). -/
structure DBInfo where
  filename : Name
  gameCount : ℕ
  lastUpdated : Name
  deriving DecidableEq

/-- One element of the `progress_data` list built by `calculate_progress`
("ProgressEntry" in the spec). -/
structure Entry where
  console : Name
  manufacturer : Name
  generation : ℤ
  release_year : ℤ
  discontinuation_year : ℤ
  total_official_games : ℤ
  current_games : ℕ
  percentage_complete : ℚ
  filename : Name
  lastUpdated : Name
  status : String
  deriving DecidableEq

/-- Model of `ProgressTracker.get_console_info`: first entry of the reference list
whose full name contains the derived name, case-insensitively. -/
def get_console_info (consoles : List RefConsole) (console_name : Name) :
    Option RefConsole :=
  match consoles with
  | [] => none
  | c :: rest =>
    if occursIn (lowerStr console_name) (lowerStr c.console) then some c
    else get_console_info rest console_name

/-- The matching test of `get_console_info` (and of the inner loops of
`get_missing_consoles` / `print_missing_consoles`):
`db_name.lower() in console['console'].lower()`. -/
def nameMatches (db_name : Name) (c : RefConsole) : Bool :=
  occursIn (lowerStr db_name) (lowerStr c.console)

/-- Model of `ProgressTracker.get_status`: status label from the (unrounded)
completion percentage. -/
def get_status (percentage : ℚ) : String :=
  if percentage ≥ 100 then "✅ Complete"
  else if percentage ≥ 75 then "🟢 Nearly Done"
  else if percentage ≥ 50 then "🟡 In Progress"
  else if percentage ≥ 25 then "🟠 Started"
  else if percentage > 0 then "🔴 Minimal"
  else "⚫ Not Started"

/-- Model of `ProgressTracker.get_status_class`: CSS class of the HTML status badge. -/
def get_status_class (percentage : ℚ) : String :=
  if percentage ≥ 100 then "status-complete"
  else if percentage ≥ 75 then "status-nearly"
  else if percentage ≥ 50 then "status-progress"
  else if percentage ≥ 25 then "status-started"
  else if percentage > 0 then "status-minimal"
  else "status-none"

/-- The body of the loop of `calculate_progress` for one matched pair:
`percentage = (current_games / total_games) * 100 if total_games > 0 else 0`,
stored rounded to two digits, with the status computed from the unrounded
value. -/
def progressEntryOf (db_info : DBInfo) (console_info : RefConsole) : Entry :=
  let total_games := console_info.total_official_games
  let current_games := db_info.gameCount
  let percentage : ℚ :=
    if total_games > 0 then ((current_games : ℚ) / (total_games : ℚ)) * 100
    else 0
  { console := console_info.console
    manufacturer := console_info.manufacturer
    generation := console_info.generation
    release_year := console_info.release_year
    discontinuation_year := console_info.discontinuation_year
    total_official_games := total_games
    current_games := current_games
    percentage_complete := pyRound percentage 2
    filename := db_info.filename
    lastUpdated := db_info.lastUpdated
    status := get_status percentage }

/-- The `progress_data` list of `calculate_progress` before the final
`sorted(...)` call, in discovery (dict-insertion) order: one entry per
discovered catalog whose derived name matches a reference console. -/
def progress_entries (consoles : List RefConsole)
    (dbs : List (Name × DBInfo)) : List Entry :=
  dbs.filterMap fun nd => (get_console_info consoles nd.1).map (progressEntryOf nd.2)

/-- The ordering used by `sorted(progress_data, key=lambda x:
x['percentage_complete'], reverse=True)`. -/
def pctGE (a b : Entry) : Prop := b.percentage_complete ≤ a.percentage_complete

instance : DecidableRel pctGE := fun a b =>
  inferInstanceAs (Decidable (b.percentage_complete ≤ a.percentage_complete))

instance : IsTotal Entry pctGE :=
  ⟨fun a b => le_total b.percentage_complete a.percentage_complete⟩

instance : IsTrans Entry pctGE := ⟨fun _ _ _ h1 h2 => le_trans h2 h1⟩

/-- Model of `ProgressTracker.calculate_progress`: build one entry per matched
catalog, then sort descending by rounded percentage.  Python's `sorted`
with `reverse=True` is a stable descending sort, whose output is uniquely
determined; `List.insertionSort` with `pctGE` computes exactly that list. -/
def calculate_progress (consoles : List RefConsole)
    (dbs : List (Name × DBInfo)) : List Entry :=
  List.insertionSort pctGE (progress_entries consoles dbs)

/-- The ordering used by the missing-consoles sort
(`key=lambda x: x['total_official_games'], reverse=True`). -/
def totalGE (a b : RefConsole) : Prop :=
  b.total_official_games ≤ a.total_official_games

instance : DecidableRel totalGE := fun a b =>
  inferInstanceAs (Decidable (b.total_official_games ≤ a.total_official_games))

instance : IsTotal RefConsole totalGE :=
  ⟨fun a b => le_total b.total_official_games a.total_official_games⟩

instance : IsTrans RefConsole totalGE := ⟨fun _ _ _ h1 h2 => le_trans h2 h1⟩

/-- Model of `ProgressTracker.get_missing_consoles`: the set `existing_consoles` of
reference-console names hit by some discovered catalog's derived name
(only membership in the set is ever used, so it is modelled as the list of
names of matched reference consoles), and the reference consoles whose
name is not in it, sorted descending by `total_official_games`. -/
def get_missing_consoles (consoles : List RefConsole)
    (dbs : List (Name × DBInfo)) : List RefConsole :=
  let existing :=
    (consoles.filter fun c => dbs.any fun d => nameMatches d.1 c).map
      fun c => c.console
  List.insertionSort totalGE
    (consoles.filter fun c => decide (c.console ∉ existing))

/-- The part of `print_detailed_progress` that renders the progress bar:
`filled_length = int(30 * percentage_complete / 100)`, then
`'█' * filled_length + '░' * (30 - filled_length)` (a `true` cell is a
filled block, a `false` cell an unfilled one; Python's `'c' * n` is empty
for `n ≤ 0`, which `Int.toNat` mirrors). -/
def progressBar (percentage_complete : ℚ) : List Bool :=
  let filled_length := pyTrunc (30 * percentage_complete / 100)
  List.replicate filled_length.toNat true ++
    List.replicate (30 - filled_length).toNat false

/-- The content found for one directory entry when the tracker scans the
working directory: the file fails to parse as JSON, or parses to a catalog
document of which only the presence and length of the `games` list and the
optional `last_updated` string are read. -/
inductive FileContent where
  | unreadable : FileContent
  | parsed (games : Option ℕ) (lastUpdated : Option Name) : FileContent
  deriving DecidableEq

/-- One entry of the scanned directory listing. -/
structure FileEntry where
  filename : Name
  content : FileContent
  deriving DecidableEq

/-- The filename test of `find_console_databases`:
`filename.endswith('_games.json') and filename != 'dead_consoles.json'`. -/
def isCatalogFilename (fn : Name) : Bool :=
  endsWithStr ("_games.json".data) fn && decide (fn ≠ ("dead_consoles.json".data))

/-- The derived console name of `find_console_databases`:
`filename.replace('_games.json', '').replace('_', ' ').title()`. -/
def deriveName (fn : Name) : Name :=
  titleCase (replaceAll ("_".data) (" ".data) (replaceAll ("_games.json".data) [] fn))

/-- The file failed `json.load` (the caught `JSONDecodeError` case). -/
def isParseFailure : FileContent → Bool
  | .unreadable => true
  | _ => false

/-- The file parsed and its document has a `games` field. -/
def hasGames : FileContent → Bool
  | .parsed (some _) _ => true
  | _ => false

/-- The `databases[console_name]` record built for a well-formed catalog
file (`None` when the file is skipped):
`{'filename': ..., 'game_count': len(data['games']),
'last_updated': data.get('last_updated', 'Unknown')}`. -/
def dbInfoOfContent (fn : Name) : FileContent → Option DBInfo
  | .parsed (some n) lu => some ⟨fn, n, lu.getD ("Unknown".data)⟩
  | _ => none

/-- Assignment `d[k] = v` on a Python dict modelled as an association list
in insertion order: an existing key keeps its position and gets the new
value, a new key is appended. -/
def dictInsert (k : Name) (v : DBInfo) :
    List (Name × DBInfo) → List (Name × DBInfo)
  | [] => [(k, v)]
  | (k', v') :: rest =>
    if k = k' then (k, v) :: rest else (k', v') :: dictInsert k v rest

/-- One iteration of the `find_console_databases` loop, acting on the
accumulated `(databases, diagnostics)` state: non-catalog filenames are
ignored; a parse failure prints one diagnostic (recorded by filename); a
parsed file lacking `games` is skipped silently; a well-formed file is
stored under its derived name. -/
def fcdStep (acc : List (Name × DBInfo) × List Name) (f : FileEntry) :
    List (Name × DBInfo) × List Name :=
  if isCatalogFilename f.filename then
    match f.content with
    | .unreadable => (acc.1, acc.2 ++ [f.filename])
    | .parsed none _ => acc
    | .parsed (some n) lu =>
      (dictInsert (deriveName f.filename)
        ⟨f.filename, n, lu.getD ("Unknown".data)⟩ acc.1, acc.2)
  else acc

/-- Model of `ProgressTracker.find_console_databases` over a directory listing,
returning the databases mapping together with the list of emitted
error diagnostics. -/
def find_console_databases (dir : List FileEntry) :
    List (Name × DBInfo) × List Name :=
  dir.foldl fcdStep ([], [])

/-- The state of `dead_consoles.json` on disk: absent, present with
invalid JSON, or present and parsing to a document whose `consoles` list
is the given one (`{}` and `{"consoles": []}` both parse to the empty
list, since the tracker only ever reads `.get('consoles', [])`). -/
inductive FileState where
  | absent : FileState
  | invalidJson : FileState
  | valid (consoles : List RefConsole) : FileState
  deriving DecidableEq

/-- The parsed reference document, reduced to what the tracker reads. -/
structure DeadDB where
  consoles : List RefConsole
  deriving DecidableEq

/-- The uncaught Python exceptions the embedded pipeline can raise. -/
inductive PyError where
  | jsonDecodeError : PyError
  | zeroDivisionError : PyError
  deriving DecidableEq

/-- Model of `ProgressTracker.load_dead_consoles`: `FileNotFoundError` is caught
(diagnostic printed, `{}` returned, so the reference list is empty);
`json.JSONDecodeError` from an existing file is not caught and escapes. -/
def load_dead_consoles : FileState → Except PyError DeadDB
  | .absent => .ok ⟨[]⟩
  | .invalidJson => .error .jsonDecodeError
  | .valid consoles => .ok ⟨consoles⟩

/-- The coverage computation of `print_summary`:
`round((databases_created/total_consoles)*100, 1)` with no guard on
`total_consoles`, so Python raises `ZeroDivisionError` when it is zero. -/
def summary_coverage (databases_created total_consoles : ℕ) :
    Except PyError ℚ :=
  if total_consoles = 0 then .error .zeroDivisionError
  else .ok (pyRound (((databases_created : ℚ) / (total_consoles : ℚ)) * 100) 1)

/-- The `main` pipeline: construct the tracker (load the reference file,
scan the directory), then generate the report (whose summary performs the
coverage division) and collect the computed data.  An uncaught exception
anywhere aborts the run before the report or website is produced. -/
def run_main (fs : FileState) (dir : List FileEntry) :
    Except PyError (List Entry × List RefConsole × ℚ) :=
  match load_dead_consoles fs with
  | .error e => .error e
  | .ok db =>
    let dbs := (find_console_databases dir).1
    let entries := calculate_progress db.consoles dbs
    match summary_coverage entries.length db.consoles.length with
    | .error e => .error e
    | .ok cov => .ok (entries, get_missing_consoles db.consoles dbs, cov)

/-- The status-tier bucket as the spec's §4.4 words give it (inclusive
lower bounds ≥100, ≥75, ≥50, ≥25, >0, else), for comparison with the two
threshold functions of the source. -/
def specTier (p : ℚ) : ℕ :=
  if p ≥ 100 then 5
  else if p ≥ 75 then 4
  else if p ≥ 50 then 3
  else if p ≥ 25 then 2
  else if p > 0 then 1
  else 0

/-- The status label the spec associates with each §4.4 bucket (using the
source's literal label strings). -/
def specTierLabel : ℕ → String
  | 5 => "✅ Complete"
  | 4 => "🟢 Nearly Done"
  | 3 => "🟡 In Progress"
  | 2 => "🟠 Started"
  | 1 => "🔴 Minimal"
  | _ => "⚫ Not Started"

/-- The badge CSS class the spec associates with each §4.4 bucket. -/
def specTierClass : ℕ → String
  | 5 => "status-complete"
  | 4 => "status-nearly"
  | 3 => "status-progress"
  | 2 => "status-started"
  | 1 => "status-minimal"
  | _ => "status-none"

/-- Reference console "Game Boy", as a concrete test fixture. -/
def gbRef : RefConsole :=
  ⟨"Game Boy".data, "Nintendo".data, 4, 1989, 2003, 1046⟩

/-- Reference console "Game Boy Advance", as a concrete test fixture. -/
def gbaRef : RefConsole :=
  ⟨"Game Boy Advance".data, "Nintendo".data, 6, 2001, 2010, 1538⟩

/-- The derived catalog name "Game Boy". -/
def gbName : Name := "Game Boy".data

/-- A discovered Game Boy catalog with three games. -/
def gbDB : DBInfo := ⟨"game_boy_games.json".data, 3, "Unknown".data⟩

/-! ### Helper lemmas about rounding -/

lemma floor_le_roundHalfEven (q : ℚ) : ⌊q⌋ ≤ roundHalfEven q := by
  unfold roundHalfEven
  split_ifs <;> omega

lemma le_pyRound_of_le (n : ℤ) (d : ℕ) (q : ℚ) (h : (n : ℚ) ≤ q) :
    (n : ℚ) ≤ pyRound q d := by
  have h10 : (0 : ℚ) < 10 ^ d := by positivity
  have h1 : (n : ℚ) * 10 ^ d ≤ q * 10 ^ d :=
    mul_le_mul_of_nonneg_right h (le_of_lt h10)
  have h2 : (n * 10 ^ d : ℤ) ≤ ⌊q * 10 ^ d⌋ := by
    rw [Int.le_floor]
    push_cast
    exact h1
  have h3 : (n * 10 ^ d : ℤ) ≤ roundHalfEven (q * 10 ^ d) :=
    le_trans h2 (floor_le_roundHalfEven _)
  unfold pyRound
  rw [le_div_iff₀ h10]
  calc (n : ℚ) * 10 ^ d = ((n * 10 ^ d : ℤ) : ℚ) := by push_cast; ring
    _ ≤ (roundHalfEven (q * 10 ^ d) : ℚ) := by exact_mod_cast h3

/-! ### Helper lemmas about the matcher -/

lemma gci_cons (c : RefConsole) (rest : List RefConsole) (derived : Name) :
    get_console_info (c :: rest) derived =
      if nameMatches derived c then some c else get_console_info rest derived := rfl

/-- The matcher `get_console_info` returns `some r` exactly when `r` is the first
reference entry (in list order) whose full name contains the derived
name. -/
lemma gci_eq_some_iff (consoles : List RefConsole) (derived : Name)
    (r : RefConsole) :
    get_console_info consoles derived = some r ↔
      ∃ l₁ l₂, consoles = l₁ ++ r :: l₂ ∧ nameMatches derived r = true ∧
        ∀ y ∈ l₁, nameMatches derived y = false := by
  induction consoles with
  | nil =>
    simp only [get_console_info]
    constructor
    · intro h; exact absurd h (by simp)
    · rintro ⟨l₁, l₂, hdecomp, -, -⟩
      exact absurd hdecomp (by simp)
  | cons c rest ih =>
    rw [gci_cons]
    by_cases h : nameMatches derived c = true
    · rw [if_pos h]
      constructor
      · intro heq
        injection heq with heq
        subst heq
        exact ⟨[], rest, rfl, h, by simp⟩
      · rintro ⟨l₁, l₂, hdecomp, hr, hfail⟩
        cases l₁ with
        | nil =>
          simp only [List.nil_append, List.cons.injEq] at hdecomp
          rw [hdecomp.1]
        | cons a l₁' =>
          simp only [List.cons_append, List.cons.injEq] at hdecomp
          have hfa := hfail a (by simp)
          rw [← hdecomp.1] at hfa
          exact absurd h (by simp [hfa])
    · rw [if_neg h]
      have hfalse : nameMatches derived c = false := by
        simpa using h
      rw [ih]
      constructor
      · rintro ⟨l₁, l₂, hdecomp, hr, hfail⟩
        refine ⟨c :: l₁, l₂, by rw [hdecomp, List.cons_append], hr, ?_⟩
        intro y hy
        rcases List.mem_cons.mp hy with hyc | hy'
        · rw [hyc]; exact hfalse
        · exact hfail y hy'
      · rintro ⟨l₁, l₂, hdecomp, hr, hfail⟩
        cases l₁ with
        | nil =>
          simp only [List.nil_append, List.cons.injEq] at hdecomp
          rw [hdecomp.1] at hfalse
          rw [hfalse] at hr
          exact absurd hr (by simp)
        | cons a l₁' =>
          simp only [List.cons_append, List.cons.injEq] at hdecomp
          exact ⟨l₁', l₂, hdecomp.2, hr, fun y hy => hfail y (by simp [hy])⟩

/-! ### Claims C1 – C3 -/

/-- C1: the matcher performs case-insensitive substring containment in one
direction only (the derived name must occur inside the reference console's
full name) and returns the first reference entry, in the reference list's
original order, that satisfies it; in particular with reference entries
"Game Boy" then "Game Boy Advance", the derived name "Game Boy" matches
"Game Boy" (the first occurrence) and not "Game Boy Advance"; the reverse
direction does not match, and matching ignores case. -/
theorem c1_matcher_first_match :
    (∀ (consoles : List RefConsole) (derived : Name) (r : RefConsole),
      get_console_info consoles derived = some r ↔
        ∃ l₁ l₂, consoles = l₁ ++ r :: l₂ ∧ nameMatches derived r = true ∧
          ∀ y ∈ l₁, nameMatches derived y = false) ∧
    get_console_info [gbRef, gbaRef] gbName = some gbRef ∧
    nameMatches gbName gbaRef = true ∧
    get_console_info [gbRef] ("Game Boy Advance".data) = none ∧
    get_console_info [gbRef] ("gAME bOY".data) = some gbRef ∧
    gbRef ≠ gbaRef :=
  ⟨gci_eq_some_iff, by decide, by decide, by decide, by decide, by decide⟩

/-- C1 witness: the Game Boy example evaluated concretely. -/
theorem c1_matcher_first_match_witness :
    get_console_info [gbRef, gbaRef] gbName = some gbRef :=
  c1_matcher_first_match.2.1

/-- C2: with `total_official_games = 0`, the guarded percentage expression
never divides (the embedded computation is the `else`-branch constant 0),
the resulting entry has `percentage_complete = 0`, and its status tier is
the not-started one. -/
theorem c2_zero_total_no_fault (info : DBInfo) (ref : RefConsole)
    (h : ref.total_official_games = 0) :
    (progressEntryOf info ref).percentage_complete = 0 ∧
    (progressEntryOf info ref).status = "⚫ Not Started" := by
  have hpct : (progressEntryOf info ref).percentage_complete =
      pyRound (if ref.total_official_games > 0
        then ((info.gameCount : ℚ) / (ref.total_official_games : ℚ)) * 100
        else 0) 2 := rfl
  have hst : (progressEntryOf info ref).status =
      get_status (if ref.total_official_games > 0
        then ((info.gameCount : ℚ) / (ref.total_official_games : ℚ)) * 100
        else 0) := rfl
  rw [hpct, hst, h]
  norm_num [get_status, pyRound, roundHalfEven]

/-- C2 witness: a concrete zero-total reference console. -/
theorem c2_zero_total_no_fault_witness :
    (progressEntryOf gbDB ⟨"Zero".data, "Z".data, 1, 1980, 1985, 0⟩).percentage_complete = 0 ∧
    (progressEntryOf gbDB ⟨"Zero".data, "Z".data, 1, 1980, 1985, 0⟩).status = "⚫ Not Started" :=
  c2_zero_total_no_fault gbDB ⟨"Zero".data, "Z".data, 1, 1980, 1985, 0⟩ rfl

/-- A reference console with one official game, for the counterexamples
where the catalog holds more games than the official total. -/
def overRef : RefConsole := ⟨"Overfull".data, "Y".data, 1, 1980, 1985, 1⟩

/-- A discovered catalog holding two games for `overRef`. -/
def overDB : DBInfo := ⟨"overfull_games.json".data, 2, "Unknown".data⟩

/-- C3 counterexample: an entry with `current_games = 2` and
`total_official_games = 1` satisfies `current ≥ total` and `total > 0`,
yet its `percentage_complete` is 200, not 100 — so the claimed equivalence
"percentage_complete = 100 iff current_games ≥ total_official_games" fails. -/
theorem c3_percentage_counterexample :
    overRef.total_official_games ≤ (overDB.gameCount : ℤ) ∧
    0 < overRef.total_official_games ∧
    (progressEntryOf overDB overRef).percentage_complete = 200 ∧
    (progressEntryOf overDB overRef).percentage_complete ≠ 100 := by
  refine ⟨by decide, by decide, by decide, by decide⟩

/-- C3 (amended): `0 ≤ percentage_complete` always; with
`total_official_games > 0`, `current_games ≥ total_official_games` implies
`percentage_complete ≥ 100`, with equality `percentage_complete = 100`
when `current_games = total_official_games` (the original "= 100 iff
current ≥ total" fails because the percentage exceeds 100 when the catalog
exceeds the official total). -/
theorem c3_percentage_amended (info : DBInfo) (ref : RefConsole) :
    0 ≤ (progressEntryOf info ref).percentage_complete ∧
    (0 < ref.total_official_games →
      ref.total_official_games ≤ (info.gameCount : ℤ) →
      100 ≤ (progressEntryOf info ref).percentage_complete) ∧
    (0 < ref.total_official_games →
      (info.gameCount : ℤ) = ref.total_official_games →
      (progressEntryOf info ref).percentage_complete = 100) := by
  have hpct : (progressEntryOf info ref).percentage_complete =
      pyRound (if ref.total_official_games > 0
        then ((info.gameCount : ℚ) / (ref.total_official_games : ℚ)) * 100
        else 0) 2 := rfl
  refine ⟨?_, ?_, ?_⟩
  · rw [hpct]
    have h0 : (0 : ℚ) ≤ (if ref.total_official_games > 0
        then ((info.gameCount : ℚ) / (ref.total_official_games : ℚ)) * 100
        else 0) := by
      split_ifs with ht
      · have htq : (0 : ℚ) < (ref.total_official_games : ℚ) := by
          exact_mod_cast ht
        positivity
      · exact le_refl 0
    simpa using le_pyRound_of_le 0 2 _ (by simpa using h0)
  · intro ht hle
    rw [hpct, if_pos ht]
    have htq : (0 : ℚ) < (ref.total_official_games : ℚ) := by exact_mod_cast ht
    have hleq : (ref.total_official_games : ℚ) ≤ (info.gameCount : ℚ) := by
      exact_mod_cast hle
    have h100 : (100 : ℚ) ≤
        ((info.gameCount : ℚ) / (ref.total_official_games : ℚ)) * 100 := by
      have h1 : (1 : ℚ) ≤ (info.gameCount : ℚ) / (ref.total_official_games : ℚ) :=
        (one_le_div htq).mpr hleq
      nlinarith
    simpa using le_pyRound_of_le 100 2 _ (by simpa using h100)
  · intro ht heq
    rw [hpct, if_pos ht]
    have hne : ((ref.total_official_games : ℤ) : ℚ) ≠ 0 := by
      exact_mod_cast ne_of_gt ht
    have hcast : ((info.gameCount : ℕ) : ℚ) = ((ref.total_official_games : ℤ) : ℚ) := by
      exact_mod_cast heq
    rw [hcast, div_self hne]
    norm_num [pyRound, roundHalfEven]

/-- A reference console and exactly complete catalog for the C3 witness. -/
def segaRef : RefConsole := ⟨"Sega Genesis".data, "Sega".data, 4, 1988, 1997, 10⟩

/-- A discovered catalog holding all ten games of `segaRef`. -/
def segaDB : DBInfo := ⟨"sega_genesis_games.json".data, 10, "Unknown".data⟩

/-- C3 witness: the amended claim evaluated at a complete 10/10 catalog. -/
theorem c3_percentage_amended_witness :
    0 ≤ (progressEntryOf segaDB segaRef).percentage_complete ∧
    100 ≤ (progressEntryOf segaDB segaRef).percentage_complete ∧
    (progressEntryOf segaDB segaRef).percentage_complete = 100 :=
  ⟨(c3_percentage_amended segaDB segaRef).1,
   (c3_percentage_amended segaDB segaRef).2.1 (by decide) (by decide),
   (c3_percentage_amended segaDB segaRef).2.2 (by decide) (by decide)⟩

/-! ### Helper lemmas about the stable descending sort -/

lemma filter_orderedInsert_pct (x : Entry) (l : List Entry) (p : ℚ) :
    (List.orderedInsert pctGE x l).filter
        (fun e => decide (e.percentage_complete = p)) =
      if x.percentage_complete = p then
        x :: l.filter (fun e => decide (e.percentage_complete = p))
      else l.filter (fun e => decide (e.percentage_complete = p)) := by
  induction l with
  | nil =>
    by_cases hxp : x.percentage_complete = p <;>
      simp [List.orderedInsert, List.filter, hxp]
  | cons y ys ih =>
    rw [List.orderedInsert]
    by_cases hxy : pctGE x y
    · rw [if_pos hxy]
      by_cases hxp : x.percentage_complete = p <;>
        simp [List.filter_cons, hxp]
    · rw [if_neg hxy]
      have hlt : x.percentage_complete < y.percentage_complete := not_le.mp hxy
      by_cases hxp : x.percentage_complete = p
      · have hyp : ¬(y.percentage_complete = p) := by
          intro hyp
          rw [hxp, hyp] at hlt
          exact lt_irrefl p hlt
        simp [List.filter_cons, hyp, ih, hxp]
      · simp [List.filter_cons, ih, hxp]

lemma filter_insertionSort_pct (l : List Entry) (p : ℚ) :
    (List.insertionSort pctGE l).filter
        (fun e => decide (e.percentage_complete = p)) =
      l.filter (fun e => decide (e.percentage_complete = p)) := by
  induction l with
  | nil => rfl
  | cons x xs ih =>
    rw [List.insertionSort, filter_orderedInsert_pct, ih]
    by_cases hxp : x.percentage_complete = p <;>
      simp [List.filter_cons, hxp]

/-! ### Claim C5 -/

/-- C5: the calculator's output is sorted descending by
`percentage_complete` (`pctGE` relates consecutive entries), it is a
permutation of the unsorted discovery-order entry list, and for every
percentage value the entries carrying that value appear in exactly their
discovery order (stability of the sort). -/
theorem c5_sorted_stable (consoles : List RefConsole)
    (dbs : List (Name × DBInfo)) :
    List.Sorted pctGE (calculate_progress consoles dbs) ∧
    List.Perm (calculate_progress consoles dbs) (progress_entries consoles dbs) ∧
    ∀ p : ℚ,
      (calculate_progress consoles dbs).filter
          (fun e => decide (e.percentage_complete = p)) =
        (progress_entries consoles dbs).filter
          (fun e => decide (e.percentage_complete = p)) :=
  ⟨List.sorted_insertionSort pctGE _, List.perm_insertionSort pctGE _,
   fun p => filter_insertionSort_pct _ p⟩

/-! ### Claim C6 -/

/-- A reference console whose catalog's unrounded percentage (74.996)
falls in the in-progress bucket while its rounded percentage (75.0)
falls in the nearly-done bucket. -/
def nearRef : RefConsole := ⟨"Near".data, "N".data, 1, 1980, 1985, 25000⟩

/-- A discovered catalog with 18749 of the 25000 games of `nearRef`. -/
def nearDB : DBInfo := ⟨"near_games.json".data, 18749, "Unknown".data⟩

/-- C6 counterexample: the stored status tier is computed from the
unrounded percentage but the badge CSS class from the rounded
`percentage_complete`, so for the 18749/25000 catalog (74.996%, rounded
75.0) the entry's tier is the in-progress one while its badge class is
the nearly-done one — the two do not agree on the threshold bucket. -/
theorem c6_status_counterexample :
    (progressEntryOf nearDB nearRef).status = "🟡 In Progress" ∧
    (progressEntryOf nearDB nearRef).percentage_complete = 75 ∧
    get_status_class (progressEntryOf nearDB nearRef).percentage_complete =
      "status-nearly" ∧
    specTierClass (specTier 75) = "status-nearly" ∧
    specTierLabel (specTier 75) = "🟢 Nearly Done" :=
  ⟨by decide, by decide, by decide, by decide, by decide⟩

/-- C6 (amended): both `get_status` and `get_status_class` select their
value by the spec's §4.4 inclusive lower-bound thresholds, so they agree
on the threshold bucket whenever both are applied to the same percentage;
in the pipeline, however, the tier is computed from the unrounded
percentage and the badge class from the rounded one, and the two can
disagree when rounding crosses a threshold. -/
theorem c6_status_thresholds_amended :
    ∀ p : ℚ, get_status p = specTierLabel (specTier p) ∧
      get_status_class p = specTierClass (specTier p) := by
  intro p
  unfold get_status get_status_class specTier
  split_ifs <;> exact ⟨rfl, rfl⟩

/-! ### Claim C9 -/

lemma progressEntry_pct_nonneg (info : DBInfo) (ref : RefConsole) :
    0 ≤ (progressEntryOf info ref).percentage_complete := by
  have hpct : (progressEntryOf info ref).percentage_complete =
      pyRound (if ref.total_official_games > 0
        then ((info.gameCount : ℚ) / (ref.total_official_games : ℚ)) * 100
        else 0) 2 := rfl
  rw [hpct]
  have h0 : (0 : ℚ) ≤ (if ref.total_official_games > 0
      then ((info.gameCount : ℚ) / (ref.total_official_games : ℚ)) * 100
      else 0) := by
    split_ifs with ht
    · have htq : (0 : ℚ) < (ref.total_official_games : ℚ) := by exact_mod_cast ht
      positivity
    · exact le_refl 0
  simpa using le_pyRound_of_le 0 2 _ (by simpa using h0)

lemma pyTrunc_eq_floor_of_nonneg {q : ℚ} (h : 0 ≤ q) : pyTrunc q = ⌊q⌋ := by
  unfold pyTrunc
  rw [if_neg (not_lt.mpr h)]

/-- A reference console with one official game whose catalog holds three
games, for the over-100% progress-bar counterexample. -/
def hugeRef : RefConsole := ⟨"Huge".data, "H".data, 1, 1980, 1985, 1⟩

/-- A discovered catalog holding three games for `hugeRef`. -/
def hugeDB : DBInfo := ⟨"huge_games.json".data, 3, "Unknown".data⟩

/-- C9 counterexample: for the 3/1 catalog the percentage is 300, the
filled-cell count is `int(30·300/100) = 90`, and Python's
`'░' * (30 - 90)` is empty — the rendered bar is 90 cells, not 30. -/
theorem c9_bar_counterexample :
    (progressBar (progressEntryOf hugeDB hugeRef).percentage_complete).length = 90 ∧
    (progressBar (progressEntryOf hugeDB hugeRef).percentage_complete).length ≠ 30 :=
  ⟨by decide, by decide⟩

/-- C9 (amended): for every entry the filled-cell count is
`⌊30 · percentage_complete / 100⌋`, and whenever
`percentage_complete ≤ 100` the bar is exactly 30 cells wide with the
remaining `30 - filled` cells unfilled (for percentages above 100 the
filled count exceeds 30 and the bar is longer than 30 cells). -/
theorem c9_bar_amended (info : DBInfo) (ref : RefConsole) :
    (progressBar (progressEntryOf info ref).percentage_complete).count true =
      (⌊30 * (progressEntryOf info ref).percentage_complete / 100⌋).toNat ∧
    ((progressEntryOf info ref).percentage_complete ≤ 100 →
      (progressBar (progressEntryOf info ref).percentage_complete).length = 30 ∧
      (progressBar (progressEntryOf info ref).percentage_complete).count false =
        30 - (⌊30 * (progressEntryOf info ref).percentage_complete / 100⌋).toNat) := by
  have hp : 0 ≤ (progressEntryOf info ref).percentage_complete :=
    progressEntry_pct_nonneg info ref
  set p := (progressEntryOf info ref).percentage_complete with hpdef
  have hq : 0 ≤ 30 * p / 100 := by positivity
  have htr : pyTrunc (30 * p / 100) = ⌊30 * p / 100⌋ :=
    pyTrunc_eq_floor_of_nonneg hq
  have hbar : progressBar p =
      List.replicate (⌊30 * p / 100⌋).toNat true ++
        List.replicate ((30 : ℤ) - ⌊30 * p / 100⌋).toNat false := by
    unfold progressBar
    rw [htr]
  constructor
  · rw [hbar]
    simp [List.count_append, List.count_replicate]
  · intro hle
    have hf0 : 0 ≤ ⌊30 * p / 100⌋ := Int.floor_nonneg.mpr hq
    have hf30 : ⌊30 * p / 100⌋ ≤ 30 := by
      have : 30 * p / 100 ≤ 30 := by linarith
      calc ⌊30 * p / 100⌋ ≤ ⌊(30 : ℚ)⌋ := Int.floor_le_floor this
        _ = 30 := by norm_num
    constructor
    · rw [hbar]
      simp only [List.length_append, List.length_replicate]
      omega
    · rw [hbar]
      simp [List.count_append, List.count_replicate]
      omega

/-- C9 witness: the amended claim evaluated on the 3/1046 Game Boy
catalog (percentage 0.29). -/
theorem c9_bar_amended_witness :
    (progressBar (progressEntryOf gbDB gbRef).percentage_complete).length = 30 :=
  ((c9_bar_amended gbDB gbRef).2 (by decide)).1

/-! ### Claims C7 and C10 -/

/-- C7: when the reference dataset file is absent, the loader does return
the empty reference set, but the claimed report is never produced: with a
total reference count of zero the summary's coverage division
`databases_created/total_consoles` raises `ZeroDivisionError` (the code
has no zero guard there), so the pipeline aborts instead of reporting a
coverage of 0. -/
theorem c7_zero_reference_divzero :
    load_dead_consoles FileState.absent = Except.ok ⟨[]⟩ ∧
    summary_coverage 0 0 = Except.error PyError.zeroDivisionError ∧
    ∀ dir : List FileEntry,
      run_main FileState.absent dir = Except.error PyError.zeroDivisionError := by
  refine ⟨rfl, rfl, ?_⟩
  intro dir
  unfold run_main load_dead_consoles
  simp [summary_coverage]

/-- C10 counterexample: a reference file that exists and parses to a
document with no consoles (for instance the valid JSON `{}`) also makes
the loader return the empty reference set, so "returns the empty
reference set if and only if the file does not exist" fails in the
only-if direction. -/
theorem c10_loader_counterexample :
    load_dead_consoles (FileState.valid []) = Except.ok ⟨[]⟩ ∧
    FileState.valid [] ≠ FileState.absent :=
  ⟨rfl, by decide⟩

/-- C10 (amended): the loader recovers only from an absent file — an
absent file yields the empty reference set and the run continues; an
existing file with invalid JSON raises an uncaught `JSONDecodeError` that
aborts the run before any report or site data is produced; an existing
file that parses yields its parsed reference list, which may also be
empty. -/
theorem c10_loader_amended :
    load_dead_consoles FileState.absent = Except.ok ⟨[]⟩ ∧
    load_dead_consoles FileState.invalidJson =
      Except.error PyError.jsonDecodeError ∧
    (∀ consoles : List RefConsole,
      load_dead_consoles (FileState.valid consoles) = Except.ok ⟨consoles⟩) ∧
    (∀ dir : List FileEntry,
      run_main FileState.invalidJson dir =
        Except.error PyError.jsonDecodeError) :=
  ⟨rfl, rfl, fun _ => rfl, fun _ => rfl⟩

/-! ### Helper lemmas about the directory scan -/

lemma fcdStep_snd (acc : List (Name × DBInfo) × List Name) (f : FileEntry) :
    (fcdStep acc f).2 =
      if isCatalogFilename f.filename && isParseFailure f.content
      then acc.2 ++ [f.filename] else acc.2 := by
  obtain ⟨fn, fc⟩ := f
  by_cases hc : isCatalogFilename fn = true
  · cases fc with
    | unreadable => simp [fcdStep, hc, isParseFailure]
    | parsed g lu => cases g <;> simp [fcdStep, hc, isParseFailure]
  · cases fc <;> simp [fcdStep, hc, isParseFailure]

lemma fcd_go_snd (dir : List FileEntry) :
    ∀ acc, (dir.foldl fcdStep acc).2 =
      acc.2 ++ (dir.filter fun f =>
        isCatalogFilename f.filename && isParseFailure f.content).map
        (fun f => f.filename) := by
  induction dir with
  | nil => intro acc; simp
  | cons f rest ih =>
    intro acc
    rw [List.foldl_cons, ih (fcdStep acc f), fcdStep_snd, List.filter_cons]
    by_cases h : (isCatalogFilename f.filename && isParseFailure f.content) = true
    · simp [h]
    · simp [h]

lemma dictInsert_self_mem_keys (k : Name) (v : DBInfo)
    (l : List (Name × DBInfo)) :
    k ∈ (dictInsert k v l).map Prod.fst := by
  induction l with
  | nil => exact List.Mem.head _
  | cons kv rest ih =>
    obtain ⟨k₀, v₀⟩ := kv
    unfold dictInsert
    by_cases h : k = k₀
    · rw [if_pos h]
      exact List.Mem.head _
    · rw [if_neg h]
      exact List.Mem.tail _ ih

lemma dictInsert_keys_mono {k' : Name} (k : Name) (v : DBInfo)
    (l : List (Name × DBInfo)) (h : k' ∈ l.map Prod.fst) :
    k' ∈ (dictInsert k v l).map Prod.fst := by
  induction l with
  | nil => exact absurd h (List.not_mem_nil k')
  | cons kv rest ih =>
    obtain ⟨k₀, v₀⟩ := kv
    unfold dictInsert
    by_cases hk : k = k₀
    · rw [if_pos hk]
      simp only [List.map_cons] at h ⊢
      rcases List.mem_cons.mp h with h1 | h2
      · exact List.mem_cons.mpr (Or.inl (h1.trans hk.symm))
      · exact List.mem_cons.mpr (Or.inr h2)
    · rw [if_neg hk]
      simp only [List.map_cons] at h ⊢
      rcases List.mem_cons.mp h with h1 | h2
      · exact List.mem_cons.mpr (Or.inl h1)
      · exact List.mem_cons.mpr (Or.inr (ih h2))

lemma fcdStep_keys_mono (acc : List (Name × DBInfo) × List Name)
    (f : FileEntry) {k' : Name} (h : k' ∈ acc.1.map Prod.fst) :
    k' ∈ (fcdStep acc f).1.map Prod.fst := by
  obtain ⟨fn, fc⟩ := f
  unfold fcdStep
  by_cases hc : isCatalogFilename fn = true
  · rw [if_pos hc]
    cases fc with
    | unreadable => exact h
    | parsed g lu =>
      cases g with
      | none => exact h
      | some n => exact dictInsert_keys_mono _ _ _ h
  · rw [if_neg hc]
    exact h

lemma fcd_go_keys_mono (dir : List FileEntry) :
    ∀ (acc : List (Name × DBInfo) × List Name) {k' : Name},
      k' ∈ acc.1.map Prod.fst →
      k' ∈ (dir.foldl fcdStep acc).1.map Prod.fst := by
  induction dir with
  | nil => intro acc k' h; exact h
  | cons f rest ih =>
    intro acc k' h
    rw [List.foldl_cons]
    exact ih (fcdStep acc f) (fcdStep_keys_mono acc f h)

lemma fcd_key_present (dir : List FileEntry) :
    ∀ (acc : List (Name × DBInfo) × List Name) (f : FileEntry),
      f ∈ dir → isCatalogFilename f.filename = true →
      hasGames f.content = true →
      deriveName f.filename ∈ (dir.foldl fcdStep acc).1.map Prod.fst := by
  induction dir with
  | nil => intro acc f h; exact absurd h (by simp)
  | cons g rest ih =>
    intro acc f hmem hc hg
    rw [List.foldl_cons]
    rcases List.mem_cons.mp hmem with heq | hmem'
    · subst heq
      apply fcd_go_keys_mono rest
      cases hcontent : f.content with
      | unreadable => rw [hcontent] at hg; exact absurd hg (by simp [hasGames])
      | parsed gOpt lu =>
        cases gOpt with
        | none => rw [hcontent] at hg; exact absurd hg (by simp [hasGames])
        | some n =>
          simp only [fcdStep, hc, hcontent, if_true]
          exact dictInsert_self_mem_keys _ _ _
    · exact ih (fcdStep acc g) f hmem' hc hg

lemma dictInsert_mem {kv : Name × DBInfo} (k : Name) (v : DBInfo)
    (l : List (Name × DBInfo)) (h : kv ∈ dictInsert k v l) :
    kv = (k, v) ∨ kv ∈ l := by
  induction l with
  | nil => simpa [dictInsert] using h
  | cons kv₀ rest ih =>
    obtain ⟨k₀, v₀⟩ := kv₀
    unfold dictInsert at h
    by_cases hk : k = k₀
    · rw [if_pos hk] at h
      rcases List.mem_cons.mp h with h1 | h2
      · exact Or.inl h1
      · exact Or.inr (List.mem_cons.mpr (Or.inr h2))
    · rw [if_neg hk] at h
      rcases List.mem_cons.mp h with h1 | h2
      · exact Or.inr (List.mem_cons.mpr (Or.inl h1))
      · rcases ih h2 with h3 | h4
        · exact Or.inl h3
        · exact Or.inr (List.mem_cons.mpr (Or.inr h4))

lemma fcdStep_origin (acc : List (Name × DBInfo) × List Name)
    (f : FileEntry) {kv : Name × DBInfo} (h : kv ∈ (fcdStep acc f).1) :
    kv ∈ acc.1 ∨ (isCatalogFilename f.filename = true ∧
      dbInfoOfContent f.filename f.content = some kv.2 ∧
      kv.1 = deriveName f.filename) := by
  by_cases hc : isCatalogFilename f.filename = true
  · cases hcontent : f.content with
    | unreadable =>
      rw [show (fcdStep acc f).1 = acc.1 from by
        simp [fcdStep, hc, hcontent]] at h
      exact Or.inl h
    | parsed gOpt lu =>
      cases gOpt with
      | none =>
        rw [show (fcdStep acc f).1 = acc.1 from by
          simp [fcdStep, hc, hcontent]] at h
        exact Or.inl h
      | some n =>
        rw [show (fcdStep acc f).1 = dictInsert (deriveName f.filename)
            ⟨f.filename, n, lu.getD ("Unknown".data)⟩ acc.1 from by
          simp [fcdStep, hc, hcontent]] at h
        rcases dictInsert_mem _ _ _ h with heq | hmem
        · right
          refine ⟨hc, ?_, ?_⟩
          · rw [heq]; rfl
          · rw [heq]
        · exact Or.inl hmem
  · rw [show (fcdStep acc f).1 = acc.1 from by simp [fcdStep, hc]] at h
    exact Or.inl h

lemma fcd_go_origin (dir : List FileEntry) :
    ∀ (acc : List (Name × DBInfo) × List Name) (kv : Name × DBInfo),
      kv ∈ (dir.foldl fcdStep acc).1 →
      kv ∈ acc.1 ∨ ∃ f, f ∈ dir ∧ isCatalogFilename f.filename = true ∧
        dbInfoOfContent f.filename f.content = some kv.2 ∧
        kv.1 = deriveName f.filename := by
  induction dir with
  | nil => intro acc kv h; exact Or.inl (by simpa using h)
  | cons g rest ih =>
    intro acc kv h
    rw [List.foldl_cons] at h
    rcases ih (fcdStep acc g) kv h with hstep | ⟨f, hf, h1, h2, h3⟩
    · rcases fcdStep_origin acc g hstep with hacc | hnew
      · exact Or.inl hacc
      · exact Or.inr ⟨g, by simp, hnew.1, hnew.2.1, hnew.2.2⟩
    · exact Or.inr ⟨f, by simp [hf], h1, h2, h3⟩

/-! ### Claim C8 -/

/-- A directory holding a single catalog file that parses but lacks a
`games` field. -/
def lacksGamesDir : List FileEntry :=
  [⟨"alpha_games.json".data, .parsed none none⟩]

/-- C8 counterexample: a catalog file that parses but lacks the `games`
field is skipped (it produces no mapping entry), yet the scan emits no
diagnostic for it — the diagnostics list stays empty, contradicting
"skipped with a non-fatal diagnostic" (only parse failures get one). -/
theorem c8_malformed_counterexample :
    isCatalogFilename ("alpha_games.json".data) = true ∧
    hasGames (FileContent.parsed none none) = false ∧
    find_console_databases lacksGamesDir = ([], []) :=
  ⟨by decide, by decide, by decide⟩

/-- C8 (amended): for every directory listing, the diagnostics are
exactly the catalog-named files that failed to parse (in scan order); a
parsed catalog file lacking `games` is skipped silently; every
well-formed catalog file still gets its derived name into the output
mapping; and every output entry originates from some well-formed catalog
file of the listing — so error files never disturb the remaining files. -/
theorem c8_malformed_amended (dir : List FileEntry) :
    (find_console_databases dir).2 =
      (dir.filter fun f =>
        isCatalogFilename f.filename && isParseFailure f.content).map
        (fun f => f.filename) ∧
    (∀ f ∈ dir, isCatalogFilename f.filename = true →
      hasGames f.content = true →
      deriveName f.filename ∈ (find_console_databases dir).1.map Prod.fst) ∧
    (∀ kv ∈ (find_console_databases dir).1,
      ∃ f, f ∈ dir ∧ isCatalogFilename f.filename = true ∧
        dbInfoOfContent f.filename f.content = some kv.2 ∧
        kv.1 = deriveName f.filename) := by
  refine ⟨?_, ?_, ?_⟩
  · simpa [find_console_databases] using fcd_go_snd dir ([], [])
  · intro f hf hc hg
    exact fcd_key_present dir ([], []) f hf hc hg
  · intro kv hkv
    rcases fcd_go_origin dir ([], []) kv
        (by simpa [find_console_databases] using hkv) with h | h
    · exact absurd h (by simp)
    · exact h

/-- A directory with one well-formed catalog file and one unreadable
one. -/
def mixedDir : List FileEntry :=
  [⟨"alpha_games.json".data, .parsed (some 2) none⟩,
   ⟨"broken_games.json".data, .unreadable⟩]

/-- C8 witness: in a directory with one well-formed and one unreadable
catalog file, the well-formed file's derived name reaches the mapping and
the diagnostics name exactly the unreadable file. -/
theorem c8_malformed_amended_witness :
    deriveName ("alpha_games.json".data) ∈
      (find_console_databases mixedDir).1.map Prod.fst ∧
    (find_console_databases mixedDir).2 = [("broken_games.json".data : Name)] :=
  ⟨(c8_malformed_amended mixedDir).2.1
      ⟨"alpha_games.json".data, .parsed (some 2) none⟩
      (by decide) (by decide) (by decide),
    by decide⟩

/-! ### Helper lemmas about matching counts and the missing list -/

lemma nameMatches_congr {c r : RefConsole} (d : Name) (h : c.console = r.console) :
    nameMatches d c = nameMatches d r := by
  unfold nameMatches
  rw [h]

lemma length_filterMap_eq_countP {α β : Type} (f : α → Option β) (l : List α) :
    (l.filterMap f).length = l.countP (fun a => (f a).isSome) := by
  induction l with
  | nil => rfl
  | cons a rest ih =>
    rw [List.filterMap_cons, List.countP_cons]
    cases hfa : f a with
    | none => simp [hfa, ih]
    | some b => simp [hfa, ih]

lemma gci_isSome_iff (consoles : List RefConsole) (n : Name) :
    (get_console_info consoles n).isSome =
      consoles.any (fun c => nameMatches n c) := by
  induction consoles with
  | nil => rfl
  | cons c rest ih =>
    rw [gci_cons, List.any_cons]
    by_cases h : nameMatches n c = true
    · simp [h]
    · simp only [Bool.not_eq_true] at h
      simp [h, ih]

lemma progress_entries_length (consoles : List RefConsole)
    (dbs : List (Name × DBInfo)) :
    (progress_entries consoles dbs).length =
      dbs.countP (fun d => consoles.any (fun c => nameMatches d.1 c)) := by
  unfold progress_entries
  rw [length_filterMap_eq_countP]
  have hfun : (fun (d : Name × DBInfo) =>
      ((get_console_info consoles d.1).map (progressEntryOf d.2)).isSome) =
      fun d => consoles.any (fun c => nameMatches d.1 c) := by
    funext d
    rw [Option.isSome_map', gci_isSome_iff]
  rw [hfun]

lemma countP_congr_mem {α : Type} (l : List α) {p q : α → Bool}
    (h : ∀ a ∈ l, p a = q a) : l.countP p = l.countP q := by
  induction l with
  | nil => rfl
  | cons a rest ih =>
    rw [List.countP_cons, List.countP_cons, h a (by simp),
      ih (fun x hx => h x (by simp [hx]))]

lemma countP_eq_sum_map {α : Type} (p : α → Bool) (l : List α) :
    l.countP p = (l.map (fun a => if p a then 1 else 0)).sum := by
  induction l with
  | nil => rfl
  | cons a rest ih =>
    rw [List.countP_cons, List.map_cons, List.sum_cons, ih]
    by_cases h : p a = true <;> simp [h] <;> omega

lemma sum_map_add {α : Type} (f g : α → ℕ) (l : List α) :
    (l.map (fun a => f a + g a)).sum = (l.map f).sum + (l.map g).sum := by
  induction l with
  | nil => rfl
  | cons a rest ih =>
    simp only [List.map_cons, List.sum_cons, ih]
    omega

lemma pair_count_comm {α β : Type} (m : α → β → Bool) (as : List α)
    (bs : List β) :
    (as.map (fun a => bs.countP (m a))).sum =
      (bs.map (fun b => as.countP (fun a => m a b))).sum := by
  induction as with
  | nil =>
    symm
    apply List.sum_eq_zero
    intro x hx
    obtain ⟨b, -, hb⟩ := List.mem_map.mp hx
    simpa using hb.symm
  | cons a rest ih =>
    rw [List.map_cons, List.sum_cons, ih]
    have hfun : (fun b => List.countP (fun a' => m a' b) (a :: rest)) =
        fun b => List.countP (fun a' => m a' b) rest +
          if m a b then 1 else 0 := by
      funext b
      exact List.countP_cons _ _ _
    rw [hfun, sum_map_add, ← countP_eq_sum_map]
    omega

lemma countP_any_eq_sum {α β : Type} (m : α → β → Bool) (as : List α)
    (bs : List β) (hA : ∀ a ∈ as, bs.countP (m a) ≤ 1) :
    as.countP (fun a => bs.any (m a)) =
      (as.map (fun a => bs.countP (m a))).sum := by
  induction as with
  | nil => rfl
  | cons a rest ih =>
    rw [List.countP_cons, List.map_cons, List.sum_cons,
      ih (fun x hx => hA x (by simp [hx]))]
    have ha := hA a (by simp)
    by_cases h : bs.any (m a) = true
    · have hpos : 0 < bs.countP (m a) := by
        obtain ⟨b, hb, hmb⟩ := List.any_eq_true.mp h
        exact List.countP_pos_iff.mpr ⟨b, hb, hmb⟩
      have hone : bs.countP (m a) = 1 := le_antisymm ha hpos
      simp [h, hone]
      omega
    · have hzero : bs.countP (m a) = 0 := by
        by_contra hne
        obtain ⟨b, hb, hmb⟩ := List.countP_pos_iff.mp (Nat.pos_of_ne_zero hne)
        exact h (List.any_eq_true.mpr ⟨b, hb, hmb⟩)
      simp [h, hzero]

lemma match_count_comm {α β : Type} (m : α → β → Bool) (as : List α)
    (bs : List β) (hA : ∀ a ∈ as, bs.countP (m a) ≤ 1)
    (hB : ∀ b ∈ bs, as.countP (fun a => m a b) ≤ 1) :
    as.countP (fun a => bs.any (m a)) =
      bs.countP (fun b => as.any (fun a => m a b)) := by
  rw [countP_any_eq_sum m as bs hA, pair_count_comm m as bs,
    ← countP_any_eq_sum (fun b a => m a b) bs as hB]

lemma mem_existing_iff {consoles : List RefConsole}
    {dbs : List (Name × DBInfo)} {c : RefConsole} (hc : c ∈ consoles) :
    (c.console ∈ ((consoles.filter fun c' =>
        dbs.any fun d => nameMatches d.1 c').map fun c' => c'.console)) ↔
      dbs.any (fun d => nameMatches d.1 c) = true := by
  constructor
  · intro h
    obtain ⟨c', hc'mem, hc'eq⟩ := List.mem_map.mp h
    obtain ⟨hc'in, hc'any⟩ := List.mem_filter.mp hc'mem
    obtain ⟨d, hd, hmd⟩ := List.any_eq_true.mp hc'any
    apply List.any_eq_true.mpr
    refine ⟨d, hd, ?_⟩
    rw [← nameMatches_congr d.1 hc'eq]
    exact hmd
  · intro h
    apply List.mem_map.mpr
    exact ⟨c, List.mem_filter.mpr ⟨hc, h⟩, rfl⟩

lemma mem_missing_iff (consoles : List RefConsole)
    (dbs : List (Name × DBInfo)) (r : RefConsole) :
    r ∈ get_missing_consoles consoles dbs ↔
      r ∈ consoles ∧ ∀ d ∈ dbs, nameMatches d.1 r = false := by
  unfold get_missing_consoles
  rw [(List.perm_insertionSort totalGE _).mem_iff, List.mem_filter]
  constructor
  · rintro ⟨hr, hdec⟩
    refine ⟨hr, ?_⟩
    have hnot := of_decide_eq_true hdec
    intro d hd
    by_contra hne
    have hmt : nameMatches d.1 r = true := by
      revert hne
      cases nameMatches d.1 r <;> simp
    exact hnot ((mem_existing_iff hr).mpr (List.any_eq_true.mpr ⟨d, hd, hmt⟩))
  · rintro ⟨hr, hfail⟩
    refine ⟨hr, decide_eq_true ?_⟩
    intro hmem
    obtain ⟨d, hd, hmd⟩ := List.any_eq_true.mp ((mem_existing_iff hr).mp hmem)
    rw [hfail d hd] at hmd
    exact absurd hmd (by simp)

lemma missing_length (consoles : List RefConsole)
    (dbs : List (Name × DBInfo)) :
    (get_missing_consoles consoles dbs).length =
      consoles.countP (fun c => !(dbs.any fun d => nameMatches d.1 c)) := by
  unfold get_missing_consoles
  rw [(List.perm_insertionSort totalGE _).length_eq,
    ← List.countP_eq_length_filter]
  apply countP_congr_mem
  intro c hc
  by_cases hany : (dbs.any fun d => nameMatches d.1 c) = true
  · rw [hany]
    exact decide_eq_false (not_not_intro ((mem_existing_iff hc).mpr hany))
  · have hfalse : (dbs.any fun d => nameMatches d.1 c) = false := by
      revert hany
      cases dbs.any fun d => nameMatches d.1 c <;> simp
    rw [hfalse]
    exact decide_eq_true (fun hmem => hany ((mem_existing_iff hc).mp hmem))

/-! ### Claim C4 -/

/-- A catalog whose derived name "Game" also substring-matches
"Game Boy". -/
def miniDB : DBInfo := ⟨"game_games.json".data, 1, "Unknown".data⟩

/-- The two catalogs "Game" and "Game Boy", both of which match the
single reference console "Game Boy". -/
def dbsTwoToOne : List (Name × DBInfo) :=
  [(("Game".data : Name), miniDB), (gbName, gbDB)]

/-- C4 counterexample, in two parts.  First, `get_missing_consoles` marks
a reference console as existing when ANY catalog name substring-matches
it, not only when a catalog selected it under the §4.3 first-match rule:
with references [Game Boy, Game Boy Advance] and the single catalog
"Game Boy" (which first-matches "Game Boy"), "Game Boy Advance" is not in
the missing list although no catalog matched it — refuting the claimed
equivalence.  Second, the count equation fails even when every catalog
matches at most one reference entry: the catalogs "Game" and "Game Boy"
each match only the single reference console "Game Boy", yet
2 progress entries + 0 missing ≠ 1 reference console. -/
theorem c4_missing_counterexample :
    (gbaRef ∉ get_missing_consoles [gbRef, gbaRef] [(gbName, gbDB)] ∧
      get_console_info [gbRef, gbaRef] gbName = some gbRef ∧
      gbRef ≠ gbaRef) ∧
    ((calculate_progress [gbRef] dbsTwoToOne).length = 2 ∧
      (get_missing_consoles [gbRef] dbsTwoToOne).length = 0 ∧
      ([gbRef] : List RefConsole).length = 1 ∧
      ([gbRef] : List RefConsole).countP
        (fun c => nameMatches ("Game".data) c) = 1 ∧
      ([gbRef] : List RefConsole).countP
        (fun c => nameMatches gbName c) = 1) :=
  ⟨⟨by decide, by decide, by decide⟩,
   ⟨by decide, by decide, by decide, by decide, by decide⟩⟩

/-- C4 (amended): a reference console is in the missing list iff no
discovered catalog's derived name substring-matches it (any-match, not
only the §4.3 first-match); the missing list is sorted descending by
`total_official_games`; and
size(progress entries) + size(missing) = size(reference list) whenever
every discovered catalog substring-matches at most one reference entry
and every reference entry is substring-matched by at most one catalog. -/
theorem c4_missing_amended (consoles : List RefConsole)
    (dbs : List (Name × DBInfo)) :
    (∀ r : RefConsole, r ∈ get_missing_consoles consoles dbs ↔
      r ∈ consoles ∧ ∀ d ∈ dbs, nameMatches d.1 r = false) ∧
    List.Sorted totalGE (get_missing_consoles consoles dbs) ∧
    ((∀ d ∈ dbs, consoles.countP (fun c => nameMatches d.1 c) ≤ 1) →
      (∀ r ∈ consoles, dbs.countP (fun d => nameMatches d.1 r) ≤ 1) →
      (calculate_progress consoles dbs).length +
        (get_missing_consoles consoles dbs).length = consoles.length) := by
  refine ⟨mem_missing_iff consoles dbs, ?_, ?_⟩
  · unfold get_missing_consoles
    exact List.sorted_insertionSort totalGE _
  · intro hA hB
    have hlen : (calculate_progress consoles dbs).length =
        (progress_entries consoles dbs).length :=
      (List.perm_insertionSort pctGE _).length_eq
    rw [hlen, progress_entries_length, missing_length,
      match_count_comm (fun d c => nameMatches d.1 c) dbs consoles hA hB]
    have hconv : consoles.countP
        (fun c => !(dbs.any fun d => nameMatches d.1 c)) =
        consoles.countP (fun c =>
          decide ¬((dbs.any fun d => nameMatches d.1 c) = true)) := by
      apply countP_congr_mem
      intro c hc
      cases dbs.any fun d => nameMatches d.1 c <;> simp
    rw [hconv]
    exact (List.length_eq_countP_add_countP
      (fun c => dbs.any fun d => nameMatches d.1 c) consoles).symm

/-- C4 witness: the amended count equation on one reference console and
its single matching catalog — 1 entry + 0 missing = 1 reference. -/
theorem c4_missing_amended_witness :
    (calculate_progress [gbRef] [(gbName, gbDB)]).length +
      (get_missing_consoles [gbRef] [(gbName, gbDB)]).length =
      ([gbRef] : List RefConsole).length :=
  (c4_missing_amended [gbRef] [(gbName, gbDB)]).2.2 (by decide) (by decide)
